import Mathlib

/-!
Verification of the disredis routing/failover coordinator
(`disredis/disredis_client/client.py`) against its design document.

The embedding below translates the Python source into Lean:

* SHA-1 (from Python's `hashlib.sha1`, used by `get_node_for_key`) is
  implemented over byte lists with `Nat` arithmetic modulo `2 ^ 32`;
* `Node` carries an `id` field modelling Python object identity
  (`list.index` on `Node` objects compares by identity, since `Node`
  defines no `__eq__`);
* methods that raise are translated as `Option`/`Except` values;
* the sentinel-failover loops of `_connect` and
  `_execute_sentinel_command` are translated as recursive functions over
  the mutable state they touch (the address rotation and the optional
  current sentinel connection), with the reachability of a sentinel
  abstracted as boolean oracles `canConnect`/`canExec`.
-/

set_option maxRecDepth 40000

namespace Disredis

/-! ### SHA-1 over byte lists (hashlib.sha1) -/

/-- Rotate a 32-bit word left by `k` (for `0 < k < 32`) on naturals below `2 ^ 32`:
the low `32 - k` bits are shifted up and the high `k` bits wrap to the bottom. -/
def rotl32 (w k : Nat) : Nat :=
  (w * 2 ^ k + w / 2 ^ (32 - k)) % 2 ^ 32

/-- SHA-1 round constant for round `t`. -/
def sha1K (t : Nat) : Nat :=
  if t < 20 then 0x5A827999
  else if t < 40 then 0x6ED9EBA1
  else if t < 60 then 0x8F1BBCDC
  else 0xCA62C1D6

/-- SHA-1 round function `f_t(b, c, d)`; the 32-bit complement of `b` is
`2 ^ 32 - 1 - b` for `b < 2 ^ 32`. -/
def sha1F (t b c d : Nat) : Nat :=
  if t < 20 then Nat.lor (Nat.land b c) (Nat.land (2 ^ 32 - 1 - b) d)
  else if t < 40 then Nat.xor b (Nat.xor c d)
  else if t < 60 then Nat.lor (Nat.land b c) (Nat.lor (Nat.land b d) (Nat.land c d))
  else Nat.xor b (Nat.xor c d)

/-- Big-endian 32-bit words from a byte list whose length is a multiple of 4. -/
def wordsFromBytes : List Nat → List Nat
  | b0 :: b1 :: b2 :: b3 :: rest =>
      (((b0 * 256 + b1) * 256 + b2) * 256 + b3) :: wordsFromBytes rest
  | _ => []

/-- Extend the 16 schedule words to 80:
`w[t] = rotl1 (w[t-3] xor w[t-8] xor w[t-14] xor w[t-16])` for `16 ≤ t < 80`. -/
def extendWords (w : List Nat) : List Nat :=
  (List.range 64).foldl
    (fun ws _ =>
      let n := ws.length
      ws ++ [rotl32
        (Nat.xor (ws.getD (n - 3) 0)
          (Nat.xor (ws.getD (n - 8) 0)
            (Nat.xor (ws.getD (n - 14) 0) (ws.getD (n - 16) 0)))) 1])
    w

/-- One SHA-1 compression round on state `(a, b, c, d, e)` with schedule word
`wt` at round `t`. -/
def sha1Round (st : Nat × Nat × Nat × Nat × Nat) (t wt : Nat) :
    Nat × Nat × Nat × Nat × Nat :=
  let (a, b, c, d, e) := st
  let temp := (rotl32 a 5 + sha1F t b c d + e + sha1K t + wt) % 2 ^ 32
  (temp, a, rotl32 b 30, c, d)

/-- Process one 64-byte block, updating the five 32-bit hash words. -/
def processBlock (h : Nat × Nat × Nat × Nat × Nat) (block : List Nat) :
    Nat × Nat × Nat × Nat × Nat :=
  let w := extendWords (wordsFromBytes block)
  let (h0, h1, h2, h3, h4) := h
  let (a, b, c, d, e) :=
    ((List.range 80).zip w).foldl (fun st p => sha1Round st p.1 p.2)
      (h0, h1, h2, h3, h4)
  ((h0 + a) % 2 ^ 32, (h1 + b) % 2 ^ 32, (h2 + c) % 2 ^ 32,
    (h3 + d) % 2 ^ 32, (h4 + e) % 2 ^ 32)

/-- The `k` big-endian bytes of `n` (most significant first). -/
def beBytes (k n : Nat) : List Nat :=
  (List.range k).map (fun i => n / 2 ^ (8 * (k - 1 - i)) % 256)

/-- SHA-1 padding: append `0x80`, zero bytes up to 56 mod 64, then the 64-bit
big-endian bit length of the message. -/
def sha1Pad (msg : List Nat) : List Nat :=
  msg ++ 0x80 :: List.replicate ((119 - msg.length % 64) % 64) 0
    ++ beBytes 8 (8 * msg.length % 2 ^ 64)

/-- SHA-1 digest (20 bytes) of a byte list. -/
def sha1Bytes (msg : List Nat) : List Nat :=
  let padded := sha1Pad msg
  let h :=
    (List.range (padded.length / 64)).foldl
      (fun h i => processBlock h ((padded.drop (64 * i)).take 64))
      (0x67452301, 0xEFCDAB89, 0x98BADCFE, 0x10325476, 0xC3D2E1F0)
  beBytes 4 h.1 ++ beBytes 4 h.2.1 ++ beBytes 4 h.2.2.1
    ++ beBytes 4 h.2.2.2.1 ++ beBytes 4 h.2.2.2.2

/-- Lowercase hexadecimal digit for `n < 16`, as produced by `hexdigest()`. -/
def hexChar (n : Nat) : Char :=
  if n < 10 then Char.ofNat (48 + n) else Char.ofNat (87 + n)

/-- Python's `hexdigest()`: two lowercase hex characters per digest byte. -/
def hexdigest (bytes : List Nat) : List Char :=
  bytes.flatMap (fun b => [hexChar (b / 16), hexChar (b % 16)])

/-- Numeric value of a lowercase hexadecimal character. -/
def hexVal (c : Char) : Nat :=
  if c.toNat ≤ 57 then c.toNat - 48 else c.toNat - 87

/-- Python's `int(s, 16)` on a lowercase hex string: big-endian fold. -/
def hexToNat (s : List Char) : Nat :=
  s.foldl (fun acc c => 16 * acc + hexVal c) 0

/-- A byte list read as a non-negative big-endian integer. -/
def beNat (bytes : List Nat) : Nat :=
  bytes.foldl (fun acc b => 256 * acc + b) 0

/-- Validation of the SHA-1 embedding against the published digest of the
empty message. -/
theorem sha1_empty_vector : hexdigest (sha1Bytes []) =
    "da39a3ee5e6b4b0d3255bfef95601890afd80709".toList := by decide

/-- Validation of the SHA-1 embedding against the published digest of the
four ASCII bytes of `test`. -/
theorem sha1_test_vector : hexdigest (sha1Bytes ([116, 101, 115, 116])) =
    "a94a8fe5ccb19ba61c4c0873d391e987982fbbd3".toList := by decide

/-! ### Data model -/

/-- A master node record, from `class Node`. The `id` field models Python
object identity: `Node` defines no `__eq__`, so `list.index` and `==` on
`Node` objects compare identity, and each constructor call yields a fresh
identity (together with a fresh connection bound to `host:port`). -/
structure Node where
  id : Nat
  name : String
  host : String
  port : String
  deriving DecidableEq, Repr

/-- Exceptions raised by the translated Python code. -/
inductive PyErr where
  /-- `NotImplementedError("Not supported for disredis.")`. -/
  | notImplementedError
  /-- Attribute lookup failure on the named missing attribute. -/
  | attributeError (attr : String)
  /-- `KeyError(key)`. -/
  | keyError (key : String)
  /-- `ValueError` from `list.index` on an absent element. -/
  | valueError
  deriving DecidableEq, Repr

/-! ### Key router: `get_node_for_key` -/

/-- The opening brace character. -/
def lbrace : Char := Char.ofNat 123

/-- The closing brace character. -/
def rbrace : Char := Char.ofNat 125

/-- The hash input chosen by `get_node_for_key`: when the key contains both
braces, the Python slice from just after the first opening brace up to the
first closing brace (empty when the first closing brace is no later);
otherwise the whole key. -/
def hashTagInput (key : List Char) : List Char :=
  if key.contains lbrace && key.contains rbrace then
    let i := List.indexOf lbrace key
    let j := List.indexOf rbrace key
    (key.drop (i + 1)).take (j - (i + 1))
  else key

/-- Bytes of a key, as Python 2 `str` bytes. -/
def keyBytes (s : List Char) : List Nat := s.map Char.toNat

/-- Routing, `get_node_for_key`: index the node table by
`int(sha1(key).hexdigest(), 16) % len(self.nodes)`. An empty node table
(division by zero in Python) is modelled as `none`. -/
def get_node_for_key (nodes : List Node) (key : String) : Option Node :=
  nodes[(hexToNat (hexdigest (sha1Bytes (keyBytes (hashTagInput key.toList)))))
    % nodes.length]?

/-- The routing index in the design document's words: the 160-bit SHA-1
digest of the hash input interpreted as a non-negative big-endian integer,
reduced modulo the shard count. -/
def routeIndexSpec (nodes : List Node) (key : String) : Nat :=
  beNat (sha1Bytes (keyBytes (hashTagInput key.toList))) % nodes.length

/-! ### Failover wrapper: `executeOnNode` -/

/-- Outcome of one attempt of a wrapped operation on a node's connection:
success, a `ConnectionError`, or any other (application-level) exception. -/
inductive OpResult (α : Type) where
  | ok (a : α)
  | connError
  | appError
  deriving DecidableEq, Repr

/-- The `executeOnNode` decorator: route the key to a node, attempt the
operation on its connection; on a `ConnectionError` refresh the owner via
`get_master` and attempt exactly once more, returning whatever that second
attempt yields. Besides the result, the model returns the list of nodes
attempted, in order. -/
def executeOnNode (route : String → Node) (refresh : Node → Node)
    (attempt : Node → OpResult α) (key : String) : OpResult α × List Node :=
  let node := route key
  match attempt node with
  | OpResult.connError =>
      let node2 := refresh node
      (attempt node2, [node, node2])
  | r => (r, [node])

/-! ### `get_master` (the spec's `refreshOwner`) -/

/-- Python `self.nodes.index(node)`: first position holding the very object
(identity comparison), `none` for the `ValueError` when absent. -/
def nodeIndex (nodes : List Node) (node : Node) : Option Nat :=
  nodes.findIdx? (fun n => n.id == node.id)

/-- Failover refresh, `get_master`: ask the sentinel for the current master address of
`node.name` (abstracted as the total function `resolve`, for calls on which
the sentinel answers). If host and port are both unchanged, return the very
same node with no further effect. Otherwise construct a new `Node` (fresh
identity `nextId`, fresh connection), replace the table entry found by
`list.index`, and return the new node. `none` models the `ValueError`
raised by `list.index` when the passed node object is no longer in the
table (the new node and its connection are created before that lookup).
The state is `(nodes, nextId)`; `nextId` advances exactly when a `Node`
(hence a connection) is constructed. -/
def get_master (resolve : String → String × String)
    (nodes : List Node) (nextId : Nat) (node : Node) :
    Option (Node × List Node × Nat) :=
  let host := (resolve node.name).1
  let port := (resolve node.name).2
  if host = node.host ∧ port = node.port then
    some (node, nodes, nextId)
  else
    let newNode : Node := ⟨nextId, node.name, host, port⟩
    match nodeIndex nodes node with
    | none => none
    | some i => some (newNode, nodes.set i newNode, nextId + 1)

/-! ### Sentinel connection management: `_connect`,
`_execute_sentinel_command` -/

/-- Sentinel connect, `_connect`: pop addresses from the front of the rotation until one
accepts a connection; the accepted address is appended to the back (rotated,
not removed) and becomes the current sentinel. An address that fails is
dropped and never re-added. `none` models the `ConnectionError` raised when
the rotation is exhausted. -/
def connectS (canConnect : String → Bool) : List String → Option (String × List String)
  | [] => none
  | a :: rest =>
      if canConnect a then some (a, rest ++ [a])
      else connectS canConnect rest

/-- Loop body of `_execute_sentinel_command`, with explicit fuel for the `while True`
loop. State: the current sentinel connection (identified by its address, or
`none`) and the address rotation. If no connection exists, `_connect` is
called first; a `ConnectionError` from the command drops the connection and
pops the back of the rotation (the address just rotated there by
`_connect`), then the loop retries. On success the serving address and the
final state are returned; `none` models the raised `ConnectionError`. -/
def execSentinelGo (canConnect canExec : String → Bool) :
    Nat → Option String → List String → Option (String × Option String × List String)
  | 0, _, _ => none
  | fuel + 1, some s, addrs =>
      if canExec s then some (s, some s, addrs)
      else if addrs.isEmpty then none
      else execSentinelGo canConnect canExec fuel none addrs.dropLast
  | fuel + 1, none, addrs =>
      match connectS canConnect addrs with
      | none => none
      | some (a, addrs') =>
          if canExec a then some (a, some a, addrs')
          else if addrs'.isEmpty then none
          else execSentinelGo canConnect canExec fuel none addrs'.dropLast

/-- Entry point `_execute_sentinel_command` with enough fuel for its loop (each failing
iteration strictly shrinks the rotation, so `length + 1` rounds suffice). -/
def execSentinelCmd (canConnect canExec : String → Bool)
    (sentinel : Option String) (addrs : List String) :
    Option (String × Option String × List String) :=
  execSentinelGo canConnect canExec (addrs.length + 1) sentinel addrs

/-! ### Unsupported operations and `__getitem__` -/

/-- Python `time()`: raises `NotImplementedError("Not supported for disredis.")`. -/
def disTime : Except PyErr (Nat × Nat) :=
  Except.error PyErr.notImplementedError

/-- Python `publish(channel, message)`: raises `NotImplementedError`. -/
def publish (channel message : String) : Except PyErr Nat :=
  Except.error PyErr.notImplementedError

/-- Python `delete(*names)`: the body is `return self.execute_command('DEL',
*names)`, but `DisredisClient` defines no `execute_command` attribute, so
the attribute lookup raises `AttributeError` before any key is routed to
any shard. -/
def delete (names : List String) : Except PyErr Nat :=
  Except.error (PyErr.attributeError "execute_command")

/-- Python `__getitem__`: `value = self.get(name); if value: return value; raise
KeyError(name)`. The routed single-key `get` is abstracted as a function to
`Option String` (`none` for Python `None`); Python truthiness makes both
`None` and the empty string falsy. -/
def dunderGetitem (get : String → Option String) (name : String) :
    Except PyErr String :=
  let value := get name
  match value with
  | some v =>
      if v.isEmpty then Except.error (PyErr.keyError name) else Except.ok v
  | none => Except.error (PyErr.keyError name)

/-! ### Helper lemmas -/

/-- Each byte produced by `beBytes` is below 256. -/
lemma beBytes_lt (k n : Nat) : ∀ b ∈ beBytes k n, b < 256 := by
  intro b hb
  simp only [beBytes, List.mem_map, List.mem_range] at hb
  obtain ⟨i, -, rfl⟩ := hb
  exact Nat.mod_lt _ (by norm_num)

/-- Each byte of a SHA-1 digest is below 256. -/
lemma sha1Bytes_lt (msg : List Nat) : ∀ b ∈ sha1Bytes msg, b < 256 := by
  intro b hb
  unfold sha1Bytes at hb
  simp only [List.mem_append] at hb
  rcases hb with ((((h | h) | h) | h) | h) <;> exact beBytes_lt _ _ b h

/-- Reading back a lowercase hex digit recovers its value. -/
lemma hexVal_hexChar : ∀ n, n < 16 → hexVal (hexChar n) = n := by decide

/-- Folding `int(_, 16)` over the hexdigest of a byte list equals folding
the big-endian byte interpretation, for any accumulator. -/
lemma foldl_hexdigest (l : List Nat) (hl : ∀ b ∈ l, b < 256) (acc : Nat) :
    (hexdigest l).foldl (fun a c => 16 * a + hexVal c) acc
      = l.foldl (fun a b => 256 * a + b) acc := by
  induction l generalizing acc with
  | nil => rfl
  | cons b t ih =>
    have hb : b < 256 := hl b (List.mem_cons_self _ _)
    have h1 : hexVal (hexChar (b / 16)) = b / 16 :=
      hexVal_hexChar _ (Nat.div_lt_of_lt_mul (by omega))
    have h2 : hexVal (hexChar (b % 16)) = b % 16 :=
      hexVal_hexChar _ (Nat.mod_lt _ (by norm_num))
    have hsplit : hexdigest (b :: t)
        = hexChar (b / 16) :: hexChar (b % 16) :: hexdigest t := by
      simp [hexdigest]
    rw [hsplit, List.foldl_cons, List.foldl_cons, h1, h2,
      ih (fun x hx => hl x (List.mem_cons_of_mem _ hx)), List.foldl_cons]
    congr 1
    omega

/-- Python's `int(sha1(x).hexdigest(), 16)` equals the digest bytes read as
a big-endian integer. -/
lemma hexToNat_hexdigest (l : List Nat) (hl : ∀ b ∈ l, b < 256) :
    hexToNat (hexdigest l) = beNat l :=
  foldl_hexdigest l hl 0

/-! ### Claims -/

/-- C1: for every single-key operation dispatched through `executeOnNode`,
at most two attempts are made: a first connectivity failure refreshes the
owner through `get_master` and retries exactly once; a second connectivity
failure propagates to the caller with no third attempt (the attempted-node
trace has exactly the two entries). -/
theorem executeOnNode_retries_once (route : String → Node)
    (refresh : Node → Node) (attempt : Node → OpResult α) (key : String)
    (h1 : attempt (route key) = OpResult.connError)
    (h2 : attempt (refresh (route key)) = OpResult.connError) :
    executeOnNode route refresh attempt key
      = (OpResult.connError, [route key, refresh (route key)]) ∧
    ∀ att : Node → OpResult α,
      (executeOnNode route refresh att key).2.length ≤ 2 := by
  constructor
  · simp [executeOnNode, h1, h2]
  · intro att
    cases h : att (route key) <;> simp [executeOnNode, h]

/-- Witness for C1 at a concrete routed node and an always-failing
connection. -/
theorem executeOnNode_retries_once_witness :
    executeOnNode (fun _ => ⟨0, "node1", "1.2.3.4", "1"⟩)
        (fun n => ⟨1, n.name, n.host, "11"⟩)
        (fun _ => (OpResult.connError : OpResult Nat)) "test"
      = (OpResult.connError,
          [⟨0, "node1", "1.2.3.4", "1"⟩, ⟨1, "node1", "1.2.3.4", "11"⟩]) :=
  (executeOnNode_retries_once _ _ _ _ rfl rfl).1

/-- C5: when the sentinel resolves a node's name to exactly its current
address (host and port both unchanged), `get_master` returns the identical
node record, leaves the table untouched and constructs no new node or
connection (the identity supply `nextId` is unchanged). -/
theorem get_master_unchanged (resolve : String → String × String)
    (nodes : List Node) (nextId : Nat) (node : Node)
    (h : resolve node.name = (node.host, node.port)) :
    get_master resolve nodes nextId node = some (node, nodes, nextId) := by
  simp [get_master, h]

/-- Witness for C5 at a concrete node whose sentinel answer is unchanged. -/
theorem get_master_unchanged_witness :
    get_master (fun _ => ("1.2.3.4", "1")) [⟨0, "node1", "1.2.3.4", "1"⟩] 1
        ⟨0, "node1", "1.2.3.4", "1"⟩
      = some (⟨0, "node1", "1.2.3.4", "1"⟩, [⟨0, "node1", "1.2.3.4", "1"⟩], 1) :=
  get_master_unchanged (fun _ => ("1.2.3.4", "1")) _ 1 _ rfl

/-- C6 (code bug): `time()` and `publish()` raise the distinct
`NotImplementedError`, but `delete(*names)` instead raises
`AttributeError` — its body calls `self.execute_command`, an attribute
`DisredisClient` never defines — so the multi-key delete does not fail with
the distinct unsupported-operation error (though it is indeed never routed
to any shard). -/
theorem unsupported_ops_evaluation :
    disTime = Except.error PyErr.notImplementedError ∧
    publish "chan" "msg" = Except.error PyErr.notImplementedError ∧
    delete ["a", "b"] = Except.error (PyErr.attributeError "execute_command") ∧
    PyErr.attributeError "execute_command" ≠ PyErr.notImplementedError := by
  refine ⟨rfl, rfl, rfl, by decide⟩

/-- C10: `__getitem__` raises `KeyError` whenever the stored value is falsy
— in particular when `get` returns the empty string without error — and
returns a value only when it is truthy (non-`None` and non-empty). -/
theorem getitem_requires_truthy (get : String → Option String)
    (name v : String) (h : get name = some v) :
    dunderGetitem get name
      = (if v.isEmpty then Except.error (PyErr.keyError name) else Except.ok v) ∧
    ∀ (g : String → Option String) (n w : String),
      dunderGetitem g n = Except.ok w → g n = some w ∧ w.isEmpty = false := by
  constructor
  · simp only [dunderGetitem, h]
  · intro g n w hw
    unfold dunderGetitem at hw
    cases hg : g n with
    | none => simp [hg] at hw
    | some u =>
      rw [hg] at hw
      by_cases hu : u.isEmpty <;> simp [hu] at hw
      exact ⟨congrArg some hw, by rw [← hw]; exact Bool.eq_false_iff.mpr hu⟩

/-- Witness for C10: a stored empty string is retrieved by `get` but makes
`__getitem__` raise `KeyError`. -/
theorem getitem_requires_truthy_witness :
    dunderGetitem (fun _ => some "") "k"
      = (if ("" : String).isEmpty then Except.error (PyErr.keyError "k")
          else Except.ok "") :=
  (getitem_requires_truthy (fun _ => some "") "k" "" rfl).1

/-- C2: routing selects the shard-table entry at the index given by the
SHA-1 digest of the chosen hash input read as a non-negative big-endian
integer (which is exactly what parsing `hexdigest()` in base 16 yields),
reduced modulo the shard count. Determinism across repeated calls is
definitional here: `get_node_for_key` is a pure function of the table and
the key. -/
theorem get_node_for_key_sha1_mod (nodes : List Node) (key : String)
    (hne : nodes ≠ []) :
    ∃ h : routeIndexSpec nodes key < nodes.length,
      get_node_for_key nodes key
        = some (nodes.get ⟨routeIndexSpec nodes key, h⟩) := by
  have hlen : 0 < nodes.length := List.length_pos.mpr hne
  have hidx : routeIndexSpec nodes key < nodes.length := Nat.mod_lt _ hlen
  refine ⟨hidx, ?_⟩
  unfold get_node_for_key
  rw [hexToNat_hexdigest _ (sha1Bytes_lt _)]
  exact List.getElem?_eq_getElem hidx

/-- Witness for C2: with two shards, the key `test` routes to the second
shard (SHA-1 of `test` is odd), matching the design document's end-to-end
scenario. -/
theorem get_node_for_key_sha1_mod_witness :
    get_node_for_key
        [⟨0, "node1", "1.2.3.4", "1"⟩, ⟨1, "node2", "1.2.3.4", "2"⟩] "test"
      = some ⟨1, "node2", "1.2.3.4", "2"⟩ := by
  obtain ⟨h, heq⟩ := get_node_for_key_sha1_mod
    [⟨0, "node1", "1.2.3.4", "1"⟩, ⟨1, "node2", "1.2.3.4", "2"⟩] "test"
    (by decide)
  rw [heq]
  congr 1

/-- C3 counterexample: for the key `a` RBRACE `b` LBRACE `c` RBRACE `d` —
which contains an opening brace (index 3) followed later by a closing
brace (index 5) — the claim says the hash input is `c`, but the code
slices up to the first closing brace overall (index 1), yielding the empty
string; likewise for the key RBRACE LBRACE the claim says the full key is
hashed, yet the code again hashes the empty string. -/
theorem hashTagInput_counterexample :
    hashTagInput (String.toList "a\x7db\x7bc\x7dd") = [] ∧
    hashTagInput (String.toList "a\x7db\x7bc\x7dd") ≠ String.toList "c" ∧
    hashTagInput (String.toList "\x7d\x7b") = [] ∧
    hashTagInput (String.toList "\x7d\x7b") ≠ String.toList "\x7d\x7b" := by
  refine ⟨by decide, by decide, by decide, by decide⟩

/-- C3 amended: when the key contains both braces, the hash input is the
Python slice from just after the first opening brace up to the first
closing brace anywhere in the key — the substring strictly between them
when no closing brace precedes the first opening brace (conjunct one), and
possibly empty otherwise; a key lacking one of the braces is hashed whole
(conjunct two); and any two keys with equal extracted inputs route to the
same shard entry (conjunct three). -/
theorem hashTag_extraction_amended (pre mid post : List Char)
    (h1 : lbrace ∉ pre) (h2 : rbrace ∉ pre) (h3 : rbrace ∉ mid) :
    hashTagInput (pre ++ lbrace :: (mid ++ rbrace :: post)) = mid ∧
    (∀ k : List Char, (k.contains lbrace && k.contains rbrace) = false →
        hashTagInput k = k) ∧
    (∀ (nodes : List Node) (k1 k2 : String),
        hashTagInput k1.toList = hashTagInput k2.toList →
        get_node_for_key nodes k1 = get_node_for_key nodes k2) := by
  refine ⟨?_, ?_, ?_⟩
  · have hcontl :
        (pre ++ lbrace :: (mid ++ rbrace :: post)).contains lbrace = true := by
      simp
    have hcontr :
        (pre ++ lbrace :: (mid ++ rbrace :: post)).contains rbrace = true := by
      simp
    have hil : List.indexOf lbrace (pre ++ lbrace :: (mid ++ rbrace :: post))
        = pre.length := by
      rw [List.indexOf_append_of_not_mem h1, List.indexOf_cons_self]
      omega
    have hir : List.indexOf rbrace (pre ++ lbrace :: (mid ++ rbrace :: post))
        = pre.length + (mid.length + 1) := by
      rw [List.indexOf_append_of_not_mem h2,
        List.indexOf_cons_ne _ (show lbrace ≠ rbrace by decide),
        List.indexOf_append_of_not_mem h3, List.indexOf_cons_self]
    unfold hashTagInput
    rw [hcontl, hcontr]
    simp only [Bool.and_self, if_true]
    rw [hil, hir]
    have harith : pre.length + (mid.length + 1) - (pre.length + 1)
        = mid.length := by omega
    rw [harith]
    have hdrop : (pre ++ lbrace :: (mid ++ rbrace :: post)).drop (pre.length + 1)
        = mid ++ rbrace :: post := by
      have hassoc : pre ++ lbrace :: (mid ++ rbrace :: post)
          = (pre ++ [lbrace]) ++ (mid ++ rbrace :: post) := by simp
      rw [hassoc, List.drop_left' (by simp)]
    rw [hdrop, List.take_left' rfl]
  · intro k hk
    unfold hashTagInput
    rw [hk]
    simp
  · intro nodes k1 k2 h
    unfold get_node_for_key
    rw [h]

/-- Witness for the amended C3 at a concrete well-formed hash tag. -/
theorem hashTag_extraction_amended_witness :
    hashTagInput (['x'] ++ lbrace :: (['1'] ++ rbrace :: [])) = ['1'] :=
  (hashTag_extraction_amended ['x'] ['1'] []
    (by decide) (by decide) (by decide)).1

/-- C4: when the sentinel resolves a node's name to an address that differs
in host or in port, `get_master` constructs a new node carrying the same
shard name and the new address, replaces the table entry at the position
`list.index` finds for the given node — leaving the table length and every
other entry unchanged — and returns the new node. -/
theorem get_master_changed (resolve : String → String × String)
    (nodes : List Node) (nextId : Nat) (node : Node) (i : Nat)
    (hi : nodeIndex nodes node = some i)
    (hch : (resolve node.name).1 ≠ node.host ∨ (resolve node.name).2 ≠ node.port) :
    ∃ newNode : Node,
      newNode = ⟨nextId, node.name, (resolve node.name).1, (resolve node.name).2⟩ ∧
      get_master resolve nodes nextId node
        = some (newNode, nodes.set i newNode, nextId + 1) ∧
      newNode.name = node.name ∧
      i < nodes.length ∧
      (nodes.set i newNode).length = nodes.length ∧
      (nodes.set i newNode)[i]? = some newNode ∧
      ∀ j, j ≠ i → (nodes.set i newNode)[j]? = nodes[j]? := by
  have hlt : i < nodes.length :=
    (List.findIdx?_eq_some_iff_findIdx_eq.mp hi).1
  refine ⟨_, rfl, ?_, rfl, hlt, List.length_set .., List.getElem?_set_self hlt,
    fun j hj => List.getElem?_set_ne (Ne.symm hj)⟩
  unfold get_master
  simp only [hi]
  rw [if_neg (not_and_or.mpr hch)]

/-- Witness for C4 at a concrete node whose sentinel answer has a new
port. -/
theorem get_master_changed_witness :
    get_master (fun _ => ("1.2.3.4", "11")) [⟨0, "node1", "1.2.3.4", "1"⟩] 1
        ⟨0, "node1", "1.2.3.4", "1"⟩
      = some (⟨1, "node1", "1.2.3.4", "11"⟩, [⟨1, "node1", "1.2.3.4", "11"⟩], 2) := by
  obtain ⟨nn, hnn, heq, -⟩ := get_master_changed (fun _ => ("1.2.3.4", "11"))
      [⟨0, "node1", "1.2.3.4", "1"⟩] 1 ⟨0, "node1", "1.2.3.4", "1"⟩ 0
      (by decide) (by decide)
  subst hnn
  exact heq

/-- C9 counterexample: after a first `get_master` call has replaced the
owner at its slot, a second call with the same original node record does
not complete: `list.index` no longer finds the original object (identity
comparison) and raises `ValueError` — modelled as `none` — rather than
returning the same replacement again. -/
theorem get_master_twice_counterexample :
    get_master (fun _ => ("1.2.3.4", "11")) [⟨0, "node1", "1.2.3.4", "1"⟩] 1
        ⟨0, "node1", "1.2.3.4", "1"⟩
      = some (⟨1, "node1", "1.2.3.4", "11"⟩, [⟨1, "node1", "1.2.3.4", "11"⟩], 2) ∧
    get_master (fun _ => ("1.2.3.4", "11")) [⟨1, "node1", "1.2.3.4", "11"⟩] 2
        ⟨0, "node1", "1.2.3.4", "1"⟩ = none := by
  refine ⟨by decide, by decide⟩

/-- C9 amended: calling `get_master` twice in succession with the same
original owner record is not idempotent. The first call succeeds and
replaces the table entry; the second call — the original node's identity
now absent from the table (its slot holds the fresh replacement) — raises
`ValueError` from `list.index` (after constructing another node and
connection), and the table entry still holds the first call's
replacement. -/
theorem get_master_twice_amended (resolve : String → String × String)
    (nodes : List Node) (nextId : Nat) (node : Node) (i : Nat)
    (hi : nodeIndex nodes node = some i)
    (hch : (resolve node.name).1 ≠ node.host ∨ (resolve node.name).2 ≠ node.port)
    (huniq : ∀ j (hj : j < nodes.length), (nodes.get ⟨j, hj⟩).id = node.id → j = i)
    (hfresh : nextId ≠ node.id) :
    ∃ n1 : Node,
      n1 = ⟨nextId, node.name, (resolve node.name).1, (resolve node.name).2⟩ ∧
      get_master resolve nodes nextId node
        = some (n1, nodes.set i n1, nextId + 1) ∧
      get_master resolve (nodes.set i n1) (nextId + 1) node = none ∧
      (nodes.set i n1)[i]? = some n1 := by
  have hlt : i < nodes.length :=
    (List.findIdx?_eq_some_iff_findIdx_eq.mp hi).1
  refine ⟨_, rfl, ?_, ?_, List.getElem?_set_self hlt⟩
  · unfold get_master
    simp only [hi]
    rw [if_neg (not_and_or.mpr hch)]
  · have hnone : nodeIndex
        (nodes.set i ⟨nextId, node.name, (resolve node.name).1, (resolve node.name).2⟩)
        node = none := by
      unfold nodeIndex
      rw [List.findIdx?_eq_none_iff]
      intro x hx
      rw [List.mem_iff_getElem] at hx
      obtain ⟨j, hj, rfl⟩ := hx
      rw [List.getElem_set]
      by_cases hji : i = j
      · simp only [hji, if_true, beq_eq_false_iff_ne, ne_eq]
        exact hfresh
      · simp only [hji, if_false, beq_eq_false_iff_ne, ne_eq]
        intro hid
        exact hji ((huniq j (by simpa using hj) hid).symm)
    unfold get_master
    simp only [hnone]
    rw [if_neg (not_and_or.mpr hch)]

/-- Witness for the amended C9 at the counterexample's concrete input. -/
theorem get_master_twice_amended_witness :
    get_master (fun _ => ("1.2.3.4", "11"))
        ([⟨0, "node1", "1.2.3.4", "1"⟩].set 0 ⟨1, "node1", "1.2.3.4", "11"⟩) 2
        ⟨0, "node1", "1.2.3.4", "1"⟩ = none := by
  obtain ⟨n1, hn1, -, hsecond, -⟩ := get_master_twice_amended
      (fun _ => ("1.2.3.4", "11")) [⟨0, "node1", "1.2.3.4", "1"⟩] 1
      ⟨0, "node1", "1.2.3.4", "1"⟩ 0 (by decide) (by decide)
      (by decide) (by decide)
  subst hn1
  exact hsecond

/-- Lemma: `_connect` raises exactly when every address in the rotation refuses a
connection. -/
lemma connectS_eq_none_iff (canC : String → Bool) (l : List String) :
    connectS canC l = none ↔ ∀ a ∈ l, canC a = false := by
  induction l with
  | nil => simp [connectS]
  | cons a rest ih =>
    by_cases h : canC a
    · simp [connectS, h]
    · simp [connectS, h, ih]

/-- A successful `_connect` decomposes the rotation: the addresses popped
before the accepted one all failed (and stay dropped), and the accepted
address is rotated to the back of the remainder. -/
lemma connectS_eq_some (canC : String → Bool) :
    ∀ (l l' : List String) (a : String), connectS canC l = some (a, l') →
      ∃ pre post, l = pre ++ a :: post ∧ (∀ x ∈ pre, canC x = false) ∧
        canC a = true ∧ l' = post ++ [a] := by
  intro l
  induction l with
  | nil => intro l' a h; simp [connectS] at h
  | cons b rest ih =>
    intro l' a h
    by_cases hb : canC b
    · simp only [connectS, hb, if_true, Option.some.injEq, Prod.mk.injEq] at h
      obtain ⟨rfl, rfl⟩ := h
      exact ⟨[], rest, rfl, by simp, hb, rfl⟩
    · simp only [connectS, hb, if_false] at h
      obtain ⟨pre, post, rfl, hpre, ha, rfl⟩ := ih _ _ h
      refine ⟨b :: pre, post, rfl, ?_, ha, rfl⟩
      intro x hx
      rcases List.mem_cons.mp hx with rfl | hx
      · exact Bool.eq_false_iff.mpr hb
      · exact hpre x hx

/-- With fuel exceeding the rotation length, a fresh
`_execute_sentinel_command` request raises exactly when no address in the
rotation both accepts a connection and serves the command. -/
lemma execSentinelGo_none_iff (canC canE : String → Bool) :
    ∀ (fuel : Nat) (addrs : List String), addrs.length < fuel →
      (execSentinelGo canC canE fuel none addrs = none ↔
        ∀ a ∈ addrs, ¬(canC a = true ∧ canE a = true)) := by
  intro fuel
  induction fuel with
  | zero => intro addrs h; exact absurd h (Nat.not_lt_zero _)
  | succ fuel ih =>
    intro addrs hlen
    cases hc : connectS canC addrs with
    | none =>
      have hall := (connectS_eq_none_iff canC addrs).mp hc
      simp only [execSentinelGo, hc]
      constructor
      · intro _ a ha hcon
        exact absurd (hall a ha) (by simp [hcon.1])
      · intro _; trivial
    | some p =>
      obtain ⟨a, addrs'⟩ := p
      obtain ⟨pre, post, rfl, hpre, hca, rfl⟩ := connectS_eq_some canC _ _ _ hc
      by_cases hea : canE a
      · simp only [execSentinelGo, hc, hea, if_true]
        constructor
        · intro hcontr
          exact absurd hcontr (by simp)
        · intro hall
          exact absurd ⟨hca, hea⟩ (hall a (by simp))
      · have heaf : canE a = false := Bool.eq_false_iff.mpr hea
        have hne : (post ++ [a]).isEmpty = false := by
          cases post <;> rfl
        have hdrop : (post ++ [a]).dropLast = post := List.dropLast_concat
        simp only [execSentinelGo, hc, heaf, hne, hdrop, Bool.false_eq_true,
          if_false]
        have hpost : post.length < fuel := by
          simp only [List.length_append, List.length_cons] at hlen
          omega
        rw [ih post hpost]
        constructor
        · intro hp x hx
          rcases List.mem_append.mp hx with hx | hx
          · intro hcc
            exact absurd (hpre x hx) (by simp [hcc.1])
          · rcases List.mem_cons.mp hx with rfl | hx
            · intro hcc
              exact hea hcc.2
            · exact hp x hx
        · intro hall x hx
          exact hall x (by simp [hx])

/-- C7: discovery address handling is asymmetric. An address that connects
is rotated to the back of the rotation and stays available; an address
that fails to connect is dropped and never re-added. In the concrete
scenario: address `A` fails, `B` succeeds — the request is served by `B`,
`A` has left the rotation, and a subsequent request is again served by `B`
over the existing connection. -/
theorem sentinel_rotation_asymmetry (canC canE : String → Bool) (A B : String)
    (hAB : A ≠ B) (hA : canC A = false) (hB : canC B = true) (hEB : canE B = true) :
    (∀ (a : String) (rest : List String), canC a = true →
        connectS canC (a :: rest) = some (a, rest ++ [a])) ∧
    (∀ (a : String) (rest : List String), canC a = false →
        connectS canC (a :: rest) = connectS canC rest) ∧
    execSentinelCmd canC canE none [A, B] = some (B, some B, [B]) ∧
    A ∉ [B] ∧
    execSentinelCmd canC canE (some B) [B] = some (B, some B, [B]) := by
  refine ⟨?_, ?_, ?_, ?_, ?_⟩
  · intro a rest h
    simp [connectS, h]
  · intro a rest h
    simp [connectS, h]
  · simp [execSentinelCmd, execSentinelGo, connectS, hA, hB, hEB]
  · simp [hAB]
  · simp [execSentinelCmd, execSentinelGo, hEB]

/-- Witness for C7 with concrete oracles: only address `b` accepts
connections, and every established connection serves commands. -/
theorem sentinel_rotation_asymmetry_witness :
    execSentinelCmd (fun s => s == "b") (fun _ => true) none ["a", "b"]
      = some ("b", some "b", ["b"]) :=
  (sentinel_rotation_asymmetry (fun s => s == "b") (fun _ => true) "a" "b"
    (by decide) (by decide) (by decide) (by decide)).2.2.1

/-- C8: a fresh discovery request raises the discovery-unavailable error
exactly when every address of the rotation has been exhausted without a
usable connection and response; and a request on a live connection that
serves the command completes at once without touching the rotation. -/
theorem sentinel_exhaustion_iff (canC canE : String → Bool)
    (addrs : List String) (s : String) :
    (execSentinelCmd canC canE none addrs = none ↔
      ∀ a ∈ addrs, ¬(canC a = true ∧ canE a = true)) ∧
    (canE s = true →
      execSentinelCmd canC canE (some s) addrs = some (s, some s, addrs)) := by
  constructor
  · exact execSentinelGo_none_iff canC canE (addrs.length + 1) addrs
      (Nat.lt_succ_self _)
  · intro h
    simp [execSentinelCmd, execSentinelGo, h]

/-- Witness for C8: with one usable address present the request does not
raise. -/
theorem sentinel_exhaustion_iff_witness :
    execSentinelCmd (fun s => s == "b") (fun _ => true) none ["a", "b"] ≠ none := by
  have h := (sentinel_exhaustion_iff (fun s => s == "b") (fun _ => true)
    ["a", "b"] "b").1
  intro hn
  exact (h.mp hn "b" (by decide)) (by decide)

end Disredis
